import Mathlib

/-!
Shallow embedding of `src/upload-receiver/index.ts` (a Bun HTTP upload
receiver). Pure helpers (`sanitizeFileName`, `isSafeFilename`,
`formatBytes`) are embedded as Lean functions on `String`/`Nat`; the
stateful pieces (the filesystem seen by the handlers, the subscriber set
of the change notifier, the `/events` connection lifecycle) are embedded
as explicit state passed through step functions. JS numbers holding
epoch-millis timestamps and byte counts are modelled as `Nat` (the code
only ever renders them or compares them; sizes below 2 to the 53 are exact
in a JS double, and the only arithmetic `formatBytes` performs on them is
division by powers of two, which a double represents exactly, and a final
decimal rounding modelled exactly below). File contents are byte lists
(`List Nat`).
-/

namespace UploadReceiver

/-- Character class `[A-Za-z0-9._-]` of the sanitizer's replacement regex
and of `isSafeFilename`, written over code points: `A`-`Z` is 65-90,
`a`-`z` is 97-122, `0`-`9` is 48-57, `_` is 95, `.` is 46, `-` is 45. -/
def isSafeChar (c : Char) : Bool :=
  let n := c.toNat
  (65 ≤ n && n ≤ 90) || (97 ≤ n && n ≤ 122) || (48 ≤ n && n ≤ 57) ||
    n = 95 || n = 46 || n = 45

/-- Embeds `isSafeFilename` (line 355): `/^[A-Za-z0-9_.-]+$/.test(name)`,
i.e. the name is nonempty and every character lies in the class. -/
def isSafeFilename (name : String) : Bool :=
  !name.data.isEmpty && name.data.all isSafeChar

/-- White-space set of JavaScript `String.prototype.trim` (ECMA-262
`WhiteSpace` plus `LineTerminator`), by code point: TAB LF VT FF CR SP
NBSP OGHAM-SP, U+2000..U+200A, LS PS NNBSP MMSP IDEOGRAPHIC-SP ZWNBSP. -/
def isJsWhitespace (c : Char) : Bool :=
  let n := c.toNat
  n = 0x09 || n = 0x0A || n = 0x0B || n = 0x0C || n = 0x0D || n = 0x20 ||
    n = 0xA0 || n = 0x1680 || (0x2000 ≤ n && n ≤ 0x200A) || n = 0x2028 ||
    n = 0x2029 || n = 0x202F || n = 0x205F || n = 0x3000 || n = 0xFEFF

/-- List-level `trim`: drop JS white space from both ends. -/
def jsTrimList (l : List Char) : List Char :=
  ((l.dropWhile isJsWhitespace).reverse.dropWhile isJsWhitespace).reverse

/-- Embeds JavaScript `input.trim()`. -/
def jsTrim (s : String) : String :=
  ⟨jsTrimList s.data⟩

/-- Embeds `trimmed.replace(/[^a-zA-Z0-9._-]/g, "_")` (line 41): every
character outside the class becomes `_`, characters inside it stay. -/
def replaceUnsafe (s : String) : String :=
  ⟨s.data.map (fun c => if isSafeChar c then c else '_')⟩

/-- Embeds `sanitizeFileName` (lines 38-43). `none` models a
`null`/`undefined` argument, where `input?.trim() ?? fallback` yields the
fallback without trimming. -/
def sanitizeFileName (input : Option String) : String :=
  let fallback := "upload.bin"
  let trimmed := match input with
    | none => fallback
    | some s => jsTrim s
  let safe := replaceUnsafe trimmed
  if safe.length > 0 then safe else fallback

/-- Embeds the on-disk name built at line 188 of the POST handler:
a template literal of `Date.now()` (decimal digits of the epoch-millis
value), a dash, and the sanitized original name. -/
def savedAsName (ts : Nat) (originalName : String) : String :=
  Nat.repr ts ++ "-" ++ sanitizeFileName (some originalName)

/-! ### Path joining (`node:path` `path.join`)

`path.join(dir, name)` concatenates the segments and normalizes: empty
and `.` segments are dropped, and a `..` segment removes the preceding
segment (at the root it is a no-op, matching `path.join` on an absolute
directory). `UPLOADS_DIR` comes out of `path.resolve`, so it is an
absolute, already-normalized path, modelled as its list of segments. A
name accepted by `isSafeFilename` cannot contain `/` (code point 47 is
outside the class), so it contributes exactly one segment. -/

/-- Normalization pass of `path.join` over segments of an absolute path. -/
def normalizeSegs (segs : List String) : List String :=
  segs.foldl
    (fun acc seg =>
      if seg = "" || seg = "." then acc
      else if seg = ".." then acc.dropLast
      else acc ++ [seg])
    []

/-- Embeds `path.join(UPLOADS_DIR, name)` (line 156) for a name with no
`/`, over the segment representation of the absolute uploads directory. -/
def pathJoin (dir : List String) (name : String) : List String :=
  normalizeSegs (dir ++ [name])

/-! ### The GET /uploads/:name handler (lines 149-166)

The filesystem is an association list from on-disk name to byte content;
`existsSync`/`Bun.file` become a lookup. Writing conses the new pair to
the front, so a later write to the same name shadows (overwrites) an
earlier one, as `Bun.write` does. -/

/-- Filesystem contents of the uploads directory: on-disk name to bytes.
Later writes appear earlier in the list and shadow older entries. -/
abbrev Fs : Type := List (String × List Nat)

/-- Embeds `existsSync` + `Bun.file` on the store: the current content at
a name, `none` when no file of that name exists. -/
def fsLookup (fs : Fs) (name : String) : Option (List Nat) :=
  List.lookup name fs

/-- Embeds `Bun.write(filePath, value)`: the new pair shadows any older
entry of the same name. -/
def fsWrite (fs : Fs) (name : String) (content : List Nat) : Fs :=
  (name, content) :: fs

/-- Outcome of `GET /uploads/:name`: 400 `"Invalid filename"`,
404 `"Not found"`, or 200 with the file bytes. -/
inductive UploadsGetResult : Type where
  | invalidFilename : UploadsGetResult
  | notFound : UploadsGetResult
  | fileResponse (content : List Nat) : UploadsGetResult
deriving DecidableEq

/-- HTTP status of a `GET /uploads/:name` outcome. -/
def UploadsGetResult.status : UploadsGetResult → Nat
  | .invalidFilename => 400
  | .notFound => 404
  | .fileResponse _ => 200

/-- Plain-text body of a `GET /uploads/:name` outcome (the file-response
case streams the bytes instead). -/
def UploadsGetResult.textBody : UploadsGetResult → Option String
  | .invalidFilename => some ("Invalid filename")
  | .notFound => some ("Not found")
  | .fileResponse _ => none

/-- Embeds the `GET /uploads/:name` branch of `fetch` (lines 149-166):
`decodedName` is `decodeURIComponent` of the path after `/uploads/`. The
pattern check runs before the filesystem is consulted, so the
`invalidFilename` branch is independent of `fs`. -/
def getUploadsHandler (fs : Fs) (decodedName : String) : UploadsGetResult :=
  if !isSafeFilename decodedName then .invalidFilename
  else
    match fsLookup fs decodedName with
    | none => .notFound
    | some content => .fileResponse content

/-! ### The POST /upload handler (lines 168-221) -/

/-- One multipart form value: a plain text field or a file part with its
client-supplied name and byte content (`value.size` is the byte count). -/
inductive FormValue : Type where
  | text (value : String) : FormValue
  | file (name : String) (content : List Nat) : FormValue
deriving DecidableEq

/-- Decoded multipart body: `formData.entries()` in submission order,
each a field name paired with its value. -/
abbrev FormData : Type := List (String × FormValue)

/-- One entry of the response's `files` array (lines 193-198). -/
structure StoredFile : Type where
  field : String
  savedAs : String
  originalName : String
  size : Nat
deriving DecidableEq

/-- Embeds the `textFields` accumulation (lines 176-182): a JS object
keyed by field name in first-insertion order, each key holding the list
of values pushed for it in order. -/
def addTextField (m : List (String × List String)) (field value : String) :
    List (String × List String) :=
  match m with
  | [] => [(field, [value])]
  | (k, vs) :: rest =>
      if k = field then (k, vs ++ [value]) :: rest
      else (k, vs) :: addTextField rest field value

/-- Mutable state threaded through the `for (const [field, value] of
formData.entries())` loop: the `storedFiles` array, the `textFields`
object, the uploads directory contents, and how many file parts have been
written so far (each file part reads `Date.now()` once; the clock passed
to the handler gives the value observed at each such read). -/
structure PostState : Type where
  stored : List StoredFile
  fields : List (String × List String)
  fs : Fs
  fileCount : Nat

/-- Embeds the body of the `formData.entries()` loop (lines 176-200). A
text value is appended to `textFields`; a file value is written to
`<dir>/<Date.now()>-<sanitized name>` (with `value.name || "upload.bin"`
as the original name, the empty string being falsy) and recorded. -/
def processParts (clock : Nat → Nat) :
    FormData → PostState → PostState
  | [], st => st
  | (field, .text v) :: rest, st =>
      processParts clock rest
        { st with fields := addTextField st.fields field v }
  | (field, .file name content) :: rest, st =>
      let originalName := if name = "" then "upload.bin" else name
      let saved := savedAsName (clock st.fileCount) originalName
      processParts clock rest
        { stored := st.stored ++ [⟨field, saved, originalName, content.length⟩]
          fields := st.fields
          fs := fsWrite st.fs saved content
          fileCount := st.fileCount + 1 }

/-- JSON body and status of the `POST /upload` response (lines 203-219). -/
structure UploadResponse : Type where
  status : Nat
  ok : Bool
  message : String
  files : List StoredFile
  fields : List (String × List String)

/-- Embeds the `POST /upload` branch of `fetch` (lines 168-221): process
all parts, then respond 200 when at least one file was stored and 400
otherwise, with `ok: true` either way. Returns the response together with
the uploads directory contents after the writes. -/
def postUploadHandler (clock : Nat → Nat) (parts : FormData) (fs : Fs) :
    UploadResponse × Fs :=
  let st := processParts clock parts ⟨[], [], fs, 0⟩
  (⟨if st.stored.length > 0 then 200 else 400,
    true,
    if st.stored.length > 0 then "Files saved successfully."
      else "No files detected in upload.",
    st.stored,
    st.fields⟩,
   st.fs)

/-- Names and contents written by a run of the loop over `parts`, in
write order, when `k` file parts were already written before it. -/
def writesOf (clock : Nat → Nat) (k : Nat) :
    FormData → List (String × List Nat)
  | [] => []
  | (_, .text _) :: rest => writesOf clock k rest
  | (_, .file name content) :: rest =>
      (savedAsName (clock k) (if name = "" then "upload.bin" else name),
        content) :: writesOf clock (k + 1) rest

/-- Number of file parts in a form body. -/
def countFileParts : FormData → Nat
  | [] => 0
  | (_, .text _) :: rest => countFileParts rest
  | (_, .file _ _) :: rest => countFileParts rest + 1

/-! ### listUploadedFiles (lines 329-353) and formatBytes (lines 359-374) -/

/-- Decimal rounding performed by `size.toFixed(f)` where
`size = bytes / 2 ^ (10 * k)` exactly (dividing a double by 1024 only
shifts its exponent): the integer nearest `size * 10 ^ f`, ties toward
the larger integer, computed exactly over `Nat`. -/
def toFixedScaled (bytes k f : Nat) : Nat :=
  (2 * bytes * 10 ^ f + 2 ^ (10 * k)) / (2 ^ (10 * k) * 2)

/-- Unit index reached by the `while (size >= 1024 && unitIndex <
units.length - 1)` loop of `formatBytes`, where `size` starts at
`bytes / 1024`: 0 = KB, 1 = MB, 2 = GB, 3 = TB. -/
def unitIndexFor (bytes : Nat) : Nat :=
  if bytes < 1024 ^ 2 then 0
  else if bytes < 1024 ^ 3 then 1
  else if bytes < 1024 ^ 4 then 2
  else 3

/-- Decimal string of `n / 10 ^ f` with `f` fixed digits, for `f = 0`
(plain integer) and `f = 1` (one digit after the point), the only values
`formatBytes` uses. -/
def fixedString (n f : Nat) : String :=
  if f = 0 then Nat.repr n
  else Nat.repr (n / 10) ++ "." ++ Nat.repr (n % 10)

/-- Embeds `formatBytes` (lines 359-374): below 1024 render the raw byte
count, otherwise scale into KB/MB/GB/TB and render with one decimal digit
when the scaled size is below 10, none otherwise. -/
def formatBytes (bytes : Nat) : String :=
  if bytes < 1024 then Nat.repr bytes ++ " B"
  else
    let k := unitIndexFor bytes + 1
    let f := if 10 * 2 ^ (10 * k) ≤ bytes then 0 else 1
    let unit := match unitIndexFor bytes with
      | 0 => "KB"
      | 1 => "MB"
      | 2 => "GB"
      | _ => "TB"
    fixedString (toFixedScaled bytes k f) f ++ " " ++ unit

/-- One entry of `readdir(UPLOADS_DIR, { withFileTypes: true })` together
with its `stat` data: name, whether it is a regular file, `size`, and
`mtimeMs`. -/
structure DirEntry : Type where
  name : String
  isFile : Bool
  size : Nat
  mtimeMs : Nat
deriving DecidableEq

/-- One element of the array `listUploadedFiles` resolves to (the
`timestamp` locale string of the source is a rendering of `mtimeMs` and
carries no further information, so `mtimeMs` stands for both). -/
structure FileDetail : Type where
  name : String
  sizeLabel : String
  mtimeMs : Nat
deriving DecidableEq

/-- Comparator `(a, b) => b.mtimeMs - a.mtimeMs` of the final `sort`, as
the total Boolean order "comes no later than" it induces: `a` may precede
`b` exactly when `b.mtimeMs ≤ a.mtimeMs`. -/
def byMtimeDesc (a b : FileDetail) : Bool :=
  b.mtimeMs ≤ a.mtimeMs

/-- Embeds `listUploadedFiles` (lines 329-353). The argument is the
outcome of reading the directory: `Except.error` models the catch branch
(any read failure), `Except.ok` carries the entries with their stat data.
Entries that are not regular files or fail `isSafeFilename` are dropped,
the rest are mapped to details and sorted by `mtimeMs` descending
(JS `Array.prototype.sort` is stable, as is `mergeSort`). -/
def listUploadedFiles (dir : Except String (List DirEntry)) :
    List FileDetail :=
  match dir with
  | .error _ => []
  | .ok entries =>
      let files := entries.filter (fun e => e.isFile && isSafeFilename e.name)
      let details := files.map
        (fun e => ⟨e.name, formatBytes e.size, e.mtimeMs⟩)
      details.mergeSort byMtimeDesc

/-! ### Change notifier (lines 45-64)

A subscriber is its identity plus the behaviour of its push callback:
`throws = true` models a callback whose `controller.enqueue` throws. The
subscriber set is a list in insertion order (JS `Set` iterates in
insertion order). -/

/-- One registered subscriber of the change notifier. -/
structure Subscriber : Type where
  id : Nat
  throws : Bool
deriving DecidableEq

/-- Observable outcome of one `broadcastChange()` call: the `(subscriber,
payload)` pushes that succeeded in order, the number of
`console.warn("Failed notifying subscriber", ...)` lines, and the
subscriber set after the loop. -/
structure BroadcastResult : Type where
  delivered : List (Nat × String)
  warnings : Nat
  subs : List Subscriber
deriving DecidableEq

/-- One iteration of the `for (const subscriber of subscribers)` loop
(lines 57-63): a throwing callback is caught and logged, a normal one
receives the payload; the set itself is never touched by the loop. -/
def broadcastStep (acc : BroadcastResult) (s : Subscriber) :
    BroadcastResult :=
  if s.throws then { acc with warnings := acc.warnings + 1 }
  else { acc with delivered := acc.delivered ++ [(s.id, "refresh")] }

/-- Embeds `broadcastChange` (lines 56-64) over the current subscriber
list. -/
def broadcastChange (subs : List Subscriber) : BroadcastResult :=
  subs.foldl broadcastStep ⟨[], 0, subs⟩

/-! ### GET /events connection lifecycle (lines 100-139, 45-54)

State: the subscriber set (connection ids, insertion order — `Set.add`
appends a member not yet present) and, per connection, the messages
enqueued on its stream so far. Events: a connection opening (`start`:
register, then enqueue `data: connected`), the client aborting
(the `abort` listener: unregister), the stream being cancelled (`cancel`:
unregister), and a broadcast (enqueue `data: refresh` to every registered
subscriber). -/

/-- Events acting on the notifier/stream state. -/
inductive EventsEvent : Type where
  | openConn (id : Nat) : EventsEvent
  | abortConn (id : Nat) : EventsEvent
  | cancelConn (id : Nat) : EventsEvent
  | broadcast : EventsEvent
deriving DecidableEq

/-- Process-wide state: registered subscriber ids in insertion order, and
each connection's enqueued messages, newest connection first. -/
structure EventsState : Type where
  subs : List Nat
  streams : List (Nat × List String)
deriving DecidableEq

/-- Embeds `subscribers.add` (line 49): a JS `Set` appends an element not
already present and ignores a duplicate. -/
def setAdd (l : List Nat) (id : Nat) : List Nat :=
  if id ∈ l then l else l ++ [id]

/-- Appends a message to the stream of connection `id`. -/
def pushMsg (streams : List (Nat × List String)) (id : Nat) (msg : String) :
    List (Nat × List String) :=
  match streams with
  | [] => []
  | (k, msgs) :: rest =>
      if k = id then (k, msgs ++ [msg]) :: rest
      else (k, msgs) :: pushMsg rest id msg

/-- Embeds one event against the state. `openConn` is the `start`
callback (lines 103-124): register the subscriber, then enqueue
`data: connected`. `abortConn` is the abort listener (lines 113-122) and
`cancelConn` the `cancel` callback (lines 125-130): both unregister
(`subscribers.delete`, line 53). `broadcast` pushes `data: refresh` to
every registered subscriber via its callback (lines 56-64, 106-108). -/
def eventsStep (st : EventsState) (e : EventsEvent) : EventsState :=
  match e with
  | .openConn id =>
      { subs := setAdd st.subs id
        streams := (id, ["data: connected\n\n"]) :: st.streams }
  | .abortConn id =>
      { st with subs := st.subs.erase id }
  | .cancelConn id =>
      { st with subs := st.subs.erase id }
  | .broadcast =>
      { st with
        streams := st.subs.foldl
          (fun acc id => pushMsg acc id ("data: refresh\n\n")) st.streams }

/-- Runs a sequence of events from a state. -/
def eventsRun (st : EventsState) (events : List EventsEvent) : EventsState :=
  events.foldl eventsStep st

end UploadReceiver

namespace UploadReceiver

/-! ## Helper lemmas -/

theorem dropWhile_eq_nil_of_forall (l : List Char) (p : Char → Bool)
    (h : ∀ c ∈ l, p c = true) : l.dropWhile p = [] := by
  simp only [List.dropWhile_eq_nil_iff]
  exact fun a ha => h a ha

theorem dropWhile_eq_self_of_forall (l : List Char) (p : Char → Bool)
    (h : ∀ c ∈ l, p c = false) : l.dropWhile p = l := by
  cases l with
  | nil => rfl
  | cons a as => simp [List.dropWhile, h a (by simp)]

theorem mk_eq_empty_iff (l : List Char) : (String.mk l) = "" ↔ l = [] := by
  constructor
  · intro h
    have h2 := congrArg String.data h
    exact h2
  · intro h
    subst h
    rfl

theorem ne_empty_of_length_pos (s : String) (h : s.length > 0) : s ≠ "" := by
  intro he
  rw [he] at h
  simp [String.length] at h

theorem safeChar_not_ws (c : Char) (h : isSafeChar c = true) :
    isJsWhitespace c = false := by
  simp only [isSafeChar, Bool.or_eq_true, Bool.and_eq_true,
    decide_eq_true_eq] at h
  simp only [isJsWhitespace, Bool.or_eq_false_iff, Bool.and_eq_false_iff,
    decide_eq_false_iff_not]
  omega

theorem jsTrimList_eq_nil_of_ws (l : List Char)
    (h : ∀ c ∈ l, isJsWhitespace c = true) : jsTrimList l = [] := by
  unfold jsTrimList
  rw [dropWhile_eq_nil_of_forall l _ h]
  rfl

theorem jsTrimList_eq_self_of_safe (l : List Char)
    (h : ∀ c ∈ l, isSafeChar c = true) : jsTrimList l = l := by
  have hws : ∀ c ∈ l, isJsWhitespace c = false :=
    fun c hc => safeChar_not_ws c (h c hc)
  unfold jsTrimList
  rw [dropWhile_eq_self_of_forall l _ hws,
    dropWhile_eq_self_of_forall l.reverse _ (by
      intro c hc
      exact hws c (List.mem_reverse.mp hc)),
    List.reverse_reverse]

theorem replaceUnsafe_data (s : String) :
    (replaceUnsafe s).data
      = s.data.map (fun c => if isSafeChar c then c else '_') :=
  rfl

theorem underscore_safe : isSafeChar '_' = true := by
  decide

theorem replaceUnsafe_all_safe (s : String) :
    ∀ c ∈ (replaceUnsafe s).data, isSafeChar c = true := by
  intro c hc
  rw [replaceUnsafe_data] at hc
  obtain ⟨a, _, ha⟩ := List.mem_map.mp hc
  by_cases hsa : isSafeChar a = true
  · rw [← ha]
    simp [hsa]
  · rw [← ha]
    simp only [Bool.not_eq_true] at hsa
    simp only [hsa, if_false]
    exact underscore_safe

theorem replaceUnsafe_of_safe (s : String)
    (h : ∀ c ∈ s.data, isSafeChar c = true) : replaceUnsafe s = s := by
  cases s with
  | mk l =>
    unfold replaceUnsafe
    congr 1
    calc l.map (fun c => if isSafeChar c then c else '_')
        = l.map id := List.map_congr_left (by intro c hc; simp [h c hc])
      _ = l := List.map_id l

theorem sanitizeFileName_some_eq (s : String) :
    sanitizeFileName (some s)
      = if (replaceUnsafe (jsTrim s)).length > 0 then replaceUnsafe (jsTrim s)
          else "upload.bin" :=
  rfl

theorem sanitizeFileName_none_eq : sanitizeFileName none = "upload.bin" := by
  decide

theorem fallback_all_safe :
    ∀ c ∈ ("upload.bin" : String).data, isSafeChar c = true := by
  decide

theorem sanitizeFileName_all_safe (x : Option String) :
    ∀ c ∈ (sanitizeFileName x).data, isSafeChar c = true := by
  cases x with
  | none =>
    rw [sanitizeFileName_none_eq]
    exact fallback_all_safe
  | some s =>
    rw [sanitizeFileName_some_eq]
    split
    · exact replaceUnsafe_all_safe _
    · exact fallback_all_safe

theorem sanitizeFileName_ne_empty (x : Option String) :
    sanitizeFileName x ≠ "" := by
  cases x with
  | none =>
    rw [sanitizeFileName_none_eq]
    decide
  | some s =>
    rw [sanitizeFileName_some_eq]
    split
    · rename_i hlen
      exact ne_empty_of_length_pos _ hlen
    · decide

/-- Claim C4 — for every candidate filename, the sanitizer output contains
no character outside `[A-Za-z0-9._-]` and is non-empty; and whenever the
character-replacement of the trimmed input does not collapse to the empty
string, the output is exactly the trimmed input with every out-of-set
character replaced by `_` (the trim, fallback, replace, fallback
algorithm). Proved for all string inputs, which covers the claim's
hypothesis of an input containing an out-of-set character. -/
theorem sanitizer_output_safe (s : String) :
    (∀ c ∈ (sanitizeFileName (some s)).data, isSafeChar c = true) ∧
    sanitizeFileName (some s) ≠ "" ∧
    (replaceUnsafe (jsTrim s) ≠ "" →
      (sanitizeFileName (some s)).data
        = (jsTrim s).data.map (fun c => if isSafeChar c then c else '_')) := by
  refine ⟨sanitizeFileName_all_safe _, sanitizeFileName_ne_empty _, ?_⟩
  intro hne
  rw [sanitizeFileName_some_eq]
  split
  · exact replaceUnsafe_data _
  · rename_i hlen
    exfalso
    apply hne
    cases hmk : replaceUnsafe (jsTrim s) with
    | mk l =>
      rw [hmk] at hlen
      simp only [String.length, not_lt, Nat.le_zero,
        List.length_eq_zero] at hlen
      rw [mk_eq_empty_iff]
      exact hlen

/-- Witness for C4 at the concrete input `my file?.txt`: the space and
the question mark are out-of-set and each is replaced by `_`. -/
theorem sanitizer_output_safe_witness :
    (sanitizeFileName (some ("my file?.txt"))).data
      = (jsTrim ("my file?.txt")).data.map
          (fun c => if isSafeChar c then c else '_') :=
  (sanitizer_output_safe ("my file?.txt")).2.2 (by decide)

/-- Claim C9 — the sanitizer maps an absent (`null`/`undefined`) candidate
and every candidate whose characters are all JS white space (including
the empty string) to the fixed fallback name `upload.bin`. -/
theorem sanitizer_fallback (s : String)
    (h : ∀ c ∈ s.data, isJsWhitespace c = true) :
    sanitizeFileName none = "upload.bin" ∧
    sanitizeFileName (some s) = "upload.bin" := by
  refine ⟨sanitizeFileName_none_eq, ?_⟩
  have htrim : jsTrim s = "" := by
    unfold jsTrim
    rw [jsTrimList_eq_nil_of_ws s.data h]
  rw [sanitizeFileName_some_eq, htrim]
  decide

/-- Witness for C9 at the concrete whitespace-only input of two spaces
and a tab. -/
theorem sanitizer_fallback_witness :
    sanitizeFileName none = "upload.bin" ∧
    sanitizeFileName (some ("  \t")) = "upload.bin" :=
  sanitizer_fallback ("  \t") (by decide)

/-- Claim C10 — the sanitizer is idempotent: its output is non-empty and
consists only of in-set characters, so trimming leaves it unchanged (no
in-set character is JS white space), the replacement is the identity on
it, and the non-empty guard keeps it. Stated over `Option String`, so it
covers absent inputs as well as every string. -/
theorem sanitizer_idempotent (x : Option String) :
    sanitizeFileName (some (sanitizeFileName x)) = sanitizeFileName x := by
  have hsafe := sanitizeFileName_all_safe x
  have hne := sanitizeFileName_ne_empty x
  have htrim : jsTrim (sanitizeFileName x) = sanitizeFileName x := by
    unfold jsTrim
    cases hmk : sanitizeFileName x with
    | mk l =>
      rw [hmk] at hsafe
      rw [jsTrimList_eq_self_of_safe l hsafe]
  rw [sanitizeFileName_some_eq, htrim,
    replaceUnsafe_of_safe _ hsafe]
  split
  · rfl
  · rename_i hlen
    exfalso
    apply hne
    cases hmk : sanitizeFileName x with
    | mk l =>
      rw [hmk] at hlen
      simp only [String.length, not_lt, Nat.le_zero,
        List.length_eq_zero] at hlen
      rw [mk_eq_empty_iff]
      exact hlen

/-! ## Path traversal (claim C3) and the GET /uploads/:name handler (claim C1) -/

theorem safeChar_ne_slash (c : Char) (h : isSafeChar c = true) : c ≠ '/' := by
  intro he
  subst he
  simp [isSafeChar] at h

theorem isSafeFilename_ne_empty (name : String)
    (h : isSafeFilename name = true) : name ≠ "" := by
  unfold isSafeFilename at h
  simp only [Bool.and_eq_true, Bool.not_eq_eq_eq_not, Bool.not_true,
    List.isEmpty_eq_false] at h
  intro he
  cases name with
  | mk l =>
    rw [mk_eq_empty_iff] at he
    exact h.1 (by rw [he])

theorem isSafeFilename_all_safe (name : String)
    (h : isSafeFilename name = true) :
    ∀ c ∈ name.data, isSafeChar c = true := by
  unfold isSafeFilename at h
  simp only [Bool.and_eq_true, List.all_eq_true] at h
  exact h.2

theorem foldl_normalize_clean (l acc : List String)
    (h : ∀ s ∈ l, s ≠ "" ∧ s ≠ "." ∧ s ≠ "..") :
    l.foldl
      (fun acc seg =>
        if seg = "" || seg = "." then acc
        else if seg = ".." then acc.dropLast
        else acc ++ [seg])
      acc = acc ++ l := by
  induction l generalizing acc with
  | nil => simp
  | cons a as ih =>
    obtain ⟨h1, h2, h3⟩ := h a (by simp)
    rw [List.foldl_cons, if_neg (by simp [h1, h2]), if_neg h3,
      ih (acc ++ [a]) (fun s hs => h s (by simp [hs]))]
    simp

/-- Counterexample for C3 — the two-dot name `..` is accepted by the
safe-name pattern, yet joining it to the store directory `/srv/uploads`
normalizes to the parent `/srv`, of which the store directory is not a
prefix: the pattern does admit a name capable of escaping the store
directory. -/
theorem dotdot_escapes_store :
    isSafeFilename ("..") = true ∧
    pathJoin (["srv", "uploads"]) ("..") = ["srv"] ∧
    ¬ (["srv", "uploads"] <+: pathJoin (["srv", "uploads"]) ("..")) := by
  refine ⟨by decide, by decide, ?_⟩
  intro h
  have h2 : pathJoin (["srv", "uploads"]) ("..") = ["srv"] := by decide
  rw [h2] at h
  exact absurd h (by decide)

/-- Claim C3 (amended) — for every string accepted by the safe-name
pattern other than the two dot segments `.` and `..`, joining it to the
(normalized, absolute) store directory appends exactly one segment: the
result has the store directory as a proper prefix, so it stays strictly
inside; no accepted name contains `/`, so no accepted name can reach
deeper than one segment. The names `.` and `..` are the only accepted
strings this fails for: `.` resolves to the store directory itself and
`..` to its parent (see the counterexample). -/
theorem safe_name_join_stays_inside (dir : List String) (name : String)
    (hdir : ∀ s ∈ dir, s ≠ "" ∧ s ≠ "." ∧ s ≠ "..")
    (hsafe : isSafeFilename name = true)
    (hdot : name ≠ ".") (hdotdot : name ≠ "..") :
    ('/' ∉ name.data) ∧
    pathJoin dir name = dir ++ [name] ∧
    dir <+: pathJoin dir name ∧
    pathJoin dir name ≠ dir := by
  have hall := isSafeFilename_all_safe name hsafe
  have hne := isSafeFilename_ne_empty name hsafe
  have hjoin : pathJoin dir name = dir ++ [name] := by
    unfold pathJoin normalizeSegs
    rw [foldl_normalize_clean (dir ++ [name]) []
      (by
        intro s hs
        rcases List.mem_append.mp hs with hin | hin
        · exact hdir s hin
        · simp only [List.mem_singleton] at hin
          subst hin
          exact ⟨hne, hdot, hdotdot⟩)]
    simp
  refine ⟨?_, hjoin, ?_, ?_⟩
  · intro hmem
    exact safeChar_ne_slash '/' (hall '/' hmem) rfl
  · rw [hjoin]
    exact List.prefix_append dir [name]
  · rw [hjoin]
    intro he
    have hlen := congrArg List.length he
    simp at hlen

/-- Witness for the amended C3 at the store directory `/srv/uploads` and
the accepted name `a.txt`. -/
theorem safe_name_join_stays_inside_witness :
    ('/' ∉ ("a.txt" : String).data) ∧
    pathJoin (["srv", "uploads"]) ("a.txt") = ["srv", "uploads", "a.txt"] ∧
    ["srv", "uploads"] <+: pathJoin (["srv", "uploads"]) ("a.txt") ∧
    pathJoin (["srv", "uploads"]) ("a.txt") ≠ ["srv", "uploads"] :=
  safe_name_join_stays_inside (["srv", "uploads"]) ("a.txt")
    (by decide) (by decide) (by decide) (by decide)

/-- Claim C1 — a `GET /uploads/:name` request whose decoded name contains
any character outside `[A-Za-z0-9._-]` is answered 400 with the
plain-text body `Invalid filename`, and this outcome is the same for
every filesystem state (the handler rejects before consulting the
filesystem: the quantification over `fs` expresses that no path is
resolved or read); a name that passes the pattern but does not exist in
the store is answered 404 `Not found`. -/
theorem get_uploads_validation (fs : Fs) (name : String) :
    ((∃ c ∈ name.data, isSafeChar c = false) →
      getUploadsHandler fs name = UploadsGetResult.invalidFilename ∧
      (getUploadsHandler fs name).status = 400 ∧
      (getUploadsHandler fs name).textBody = some ("Invalid filename")) ∧
    (isSafeFilename name = true → fsLookup fs name = none →
      getUploadsHandler fs name = UploadsGetResult.notFound ∧
      (getUploadsHandler fs name).status = 404) := by
  constructor
  · intro hbad
    have hall : name.data.all isSafeChar = false := by
      rw [List.all_eq_false]
      obtain ⟨c, hc, hcf⟩ := hbad
      exact ⟨c, hc, by simp [hcf]⟩
    have hsf : isSafeFilename name = false := by
      unfold isSafeFilename
      simp [hall]
    have h1 : getUploadsHandler fs name = UploadsGetResult.invalidFilename := by
      simp [getUploadsHandler, hsf]
    exact ⟨h1, by rw [h1]; rfl, by rw [h1]; rfl⟩
  · intro hsf hlook
    have h1 : getUploadsHandler fs name = UploadsGetResult.notFound := by
      simp [getUploadsHandler, hsf, hlook]
    exact ⟨h1, by rw [h1]; rfl⟩

/-- Witness for C1 at the decoded traversal name `../../etc/passwd`
(containing `/`, outside the class) against the empty store, and at the
accepted but missing name `does-not-exist.txt`. -/
theorem get_uploads_validation_witness :
    (getUploadsHandler [] ("../../etc/passwd")
        = UploadsGetResult.invalidFilename ∧
      (getUploadsHandler [] ("../../etc/passwd")).status = 400 ∧
      (getUploadsHandler [] ("../../etc/passwd")).textBody
        = some ("Invalid filename")) ∧
    (getUploadsHandler [] ("does-not-exist.txt")
        = UploadsGetResult.notFound ∧
      (getUploadsHandler [] ("does-not-exist.txt")).status = 404) :=
  ⟨(get_uploads_validation [] ("../../etc/passwd")).1
      ⟨'/', by decide, by decide⟩,
   (get_uploads_validation [] ("does-not-exist.txt")).2 (by decide) rfl⟩


/-! ## The POST /upload handler (claims C2 and C5) -/

theorem digitChar_safe (d : Nat) (h : d < 10) :
    isSafeChar (Nat.digitChar d) = true := by
  interval_cases d <;> decide

theorem toDigitsCore_safe (fuel : Nat) : ∀ (n : Nat) (ds : List Char),
    (∀ c ∈ ds, isSafeChar c = true) →
    ∀ c ∈ Nat.toDigitsCore 10 fuel n ds, isSafeChar c = true := by
  induction fuel with
  | zero =>
    intro n ds h c hc
    exact h c hc
  | succ fuel ih =>
    intro n ds h c hc
    rw [Nat.toDigitsCore] at hc
    by_cases hz : n / 10 = 0
    · simp only [hz, if_true] at hc
      rcases List.mem_cons.mp hc with he | hin
      · subst he
        exact digitChar_safe _ (Nat.mod_lt _ (by norm_num))
      · exact h c hin
    · simp only [hz, if_false] at hc
      exact ih (n / 10) (Nat.digitChar (n % 10) :: ds)
        (by
          intro x hx
          rcases List.mem_cons.mp hx with he | hin
          · subst he
            exact digitChar_safe _ (Nat.mod_lt _ (by norm_num))
          · exact h x hin) c hc

theorem repr_all_safe (n : Nat) :
    ∀ c ∈ (Nat.repr n).data, isSafeChar c = true := by
  intro c hc
  exact toDigitsCore_safe (n + 1) n [] (by simp) c hc

theorem savedAsName_data (ts : Nat) (name : String) :
    (savedAsName ts name).data
      = (Nat.repr ts).data ++ '-' :: (sanitizeFileName (some name)).data := by
  unfold savedAsName
  rw [String.data_append, String.data_append, List.append_assoc]
  rfl

theorem savedAsName_safe (ts : Nat) (name : String) :
    isSafeFilename (savedAsName ts name) = true := by
  unfold isSafeFilename
  rw [savedAsName_data]
  simp only [Bool.and_eq_true, Bool.not_eq_eq_eq_not, Bool.not_false,
    List.isEmpty_eq_false, List.all_eq_true]
  constructor
  · simp
  · intro c hc
    rcases List.mem_append.mp hc with hin | hin
    · exact repr_all_safe ts c hin
    · rcases List.mem_cons.mp hin with he | hin
      · subst he
        decide
      · exact sanitizeFileName_all_safe (some name) c hin

theorem lookup_cons_self {α β : Type} [BEq α] [LawfulBEq α] (key : α)
    (v : β) (rest : List (α × β)) :
    List.lookup key ((key, v) :: rest) = some v := by
  simp [List.lookup]

theorem lookup_cons_ne {α β : Type} [BEq α] [LawfulBEq α] (key k : α)
    (hne : key ≠ k) (v : β) (rest : List (α × β)) :
    List.lookup key ((k, v) :: rest) = List.lookup key rest := by
  simp [List.lookup, beq_eq_false_iff_ne.mpr hne]

theorem lookup_addTextField_self (m : List (String × List String))
    (field v : String) :
    ∃ vs, List.lookup field (addTextField m field v) = some vs ∧ v ∈ vs := by
  induction m with
  | nil =>
    refine ⟨[v], ?_, by simp⟩
    simp [addTextField, List.lookup]
  | cons p rest ih =>
    obtain ⟨k, kvs⟩ := p
    by_cases hk : k = field
    · refine ⟨kvs ++ [v], ?_, by simp⟩
      simp only [addTextField, hk, if_pos]
      exact lookup_cons_self field (kvs ++ [v]) rest
    · obtain ⟨vs', hvs', hv⟩ := ih
      refine ⟨vs', ?_, hv⟩
      simp only [addTextField, hk, if_false]
      rw [lookup_cons_ne field k (fun he => hk he.symm) kvs _]
      exact hvs'

theorem lookup_addTextField_preserve (m : List (String × List String))
    (field f v2 v : String) (vs : List String)
    (hl : List.lookup field m = some vs) (hv : v ∈ vs) :
    ∃ vs', List.lookup field (addTextField m f v2) = some vs' ∧ v ∈ vs' := by
  induction m with
  | nil => simp [List.lookup] at hl
  | cons p rest ih =>
    obtain ⟨k, kvs⟩ := p
    by_cases hk : k = f
    · have haddf : addTextField ((k, kvs) :: rest) f v2
          = (k, kvs ++ [v2]) :: rest := by
        simp [addTextField, hk]
      by_cases hkf : field = k
      · have hvs : vs = kvs := by
          rw [hkf, lookup_cons_self] at hl
          injection hl with h2
          exact h2.symm
        refine ⟨kvs ++ [v2], ?_, ?_⟩
        · rw [haddf, hkf]
          exact lookup_cons_self k (kvs ++ [v2]) rest
        · exact List.mem_append_left _ (hvs ▸ hv)
      · refine ⟨vs, ?_, hv⟩
        rw [haddf, lookup_cons_ne field k hkf]
        rw [lookup_cons_ne field k hkf] at hl
        exact hl
    · have haddf : addTextField ((k, kvs) :: rest) f v2
          = (k, kvs) :: addTextField rest f v2 := by
        simp [addTextField, hk]
      by_cases hkf : field = k
      · have hvs : vs = kvs := by
          rw [hkf, lookup_cons_self] at hl
          injection hl with h2
          exact h2.symm
        refine ⟨kvs, ?_, hvs ▸ hv⟩
        rw [haddf, hkf]
        exact lookup_cons_self k kvs _
      · rw [lookup_cons_ne field k hkf] at hl
        obtain ⟨vs', hvs', hv'⟩ := ih hl
        refine ⟨vs', ?_, hv'⟩
        rw [haddf, lookup_cons_ne field k hkf]
        exact hvs'

theorem processParts_fields_preserve (clock : Nat → Nat)
    (parts : List (String × FormValue)) (st : PostState) (field v : String)
    (h : ∃ vs, List.lookup field st.fields = some vs ∧ v ∈ vs) :
    ∃ vs, List.lookup field (processParts clock parts st).fields = some vs ∧
      v ∈ vs := by
  induction parts generalizing st with
  | nil => exact h
  | cons p rest ih =>
    obtain ⟨fd, val⟩ := p
    cases val with
    | text tv =>
      rw [processParts]
      apply ih
      obtain ⟨vs, hvs, hv⟩ := h
      exact lookup_addTextField_preserve st.fields field fd tv v vs hvs hv
    | file nm ct =>
      rw [processParts]
      exact ih _ h

theorem processParts_fields_mem (clock : Nat → Nat)
    (parts : List (String × FormValue)) (st : PostState) (field v : String)
    (h : (field, FormValue.text v) ∈ parts) :
    ∃ vs, List.lookup field (processParts clock parts st).fields = some vs ∧
      v ∈ vs := by
  induction parts generalizing st with
  | nil => cases h
  | cons p rest ih =>
    rcases List.mem_cons.mp h with he | hin
    · subst he
      rw [processParts]
      apply processParts_fields_preserve
      exact lookup_addTextField_self st.fields field v
    · obtain ⟨fd, val⟩ := p
      cases val with
      | text tv =>
        rw [processParts]
        exact ih _ hin
      | file nm ct =>
        rw [processParts]
        exact ih _ hin

theorem processParts_stored_length (clock : Nat → Nat)
    (parts : List (String × FormValue)) (st : PostState) :
    (processParts clock parts st).stored.length
      = st.stored.length + countFileParts parts := by
  induction parts generalizing st with
  | nil => simp [processParts, countFileParts]
  | cons p rest ih =>
    obtain ⟨fd, val⟩ := p
    cases val with
    | text tv =>
      rw [processParts, ih, countFileParts]
    | file nm ct =>
      rw [processParts, ih, countFileParts]
      simp only [List.length_append, List.length_cons, List.length_nil]
      omega

theorem exists_file_iff (parts : List (String × FormValue)) :
    (∃ field name content, (field, FormValue.file name content) ∈ parts) ↔
      countFileParts parts ≠ 0 := by
  induction parts with
  | nil => simp [countFileParts]
  | cons p rest ih =>
    obtain ⟨fd, val⟩ := p
    cases val with
    | text tv =>
      rw [countFileParts, ← ih]
      constructor
      · rintro ⟨f, n, c, hm⟩
        rcases List.mem_cons.mp hm with he | hin
        · cases he
        · exact ⟨f, n, c, hin⟩
      · rintro ⟨f, n, c, hin⟩
        exact ⟨f, n, c, List.mem_cons_of_mem _ hin⟩
    | file nm ct =>
      rw [countFileParts]
      constructor
      · intro _
        omega
      · intro _
        exact ⟨fd, nm, ct, List.mem_cons_self _ _⟩

theorem processParts_fs (clock : Nat → Nat)
    (parts : List (String × FormValue)) (st : PostState) :
    (processParts clock parts st).fs
      = (writesOf clock st.fileCount parts).reverse ++ st.fs := by
  induction parts generalizing st with
  | nil => simp [processParts, writesOf]
  | cons p rest ih =>
    obtain ⟨fd, val⟩ := p
    cases val with
    | text tv =>
      rw [processParts, ih, writesOf]
    | file nm ct =>
      rw [processParts, ih, writesOf]
      simp [fsWrite]

theorem writesOf_append (clock : Nat → Nat) (k : Nat)
    (l1 l2 : List (String × FormValue)) :
    writesOf clock k (l1 ++ l2)
      = writesOf clock k l1 ++ writesOf clock (k + countFileParts l1) l2 := by
  induction l1 generalizing k with
  | nil => simp [writesOf, countFileParts]
  | cons p rest ih =>
    obtain ⟨fd, val⟩ := p
    cases val with
    | text tv =>
      rw [List.cons_append, writesOf, writesOf, ih, countFileParts]
    | file nm ct =>
      rw [List.cons_append, writesOf, writesOf, ih, countFileParts]
      have harith : k + 1 + countFileParts rest
          = k + (countFileParts rest + 1) := by
        omega
      rw [harith, List.cons_append]

theorem lookup_append_right {β : Type} (key : String)
    (l1 l2 : List (String × β)) (h : ∀ p ∈ l1, p.1 ≠ key) :
    List.lookup key (l1 ++ l2) = List.lookup key l2 := by
  induction l1 with
  | nil => simp
  | cons p rest ih =>
    obtain ⟨k, v⟩ := p
    have hk : key ≠ k :=
      fun he => h (k, v) (List.mem_cons_self _ _) he.symm
    rw [List.cons_append, lookup_cons_ne key k hk]
    exact ih (fun q hq => h q (List.mem_cons_of_mem _ hq))

theorem getUploadsHandler_found (fs : Fs) (name : String) (content : List Nat)
    (h1 : isSafeFilename name = true) (h2 : fsLookup fs name = some content) :
    getUploadsHandler fs name = UploadsGetResult.fileResponse content := by
  simp [getUploadsHandler, h1, h2]

/-- Claim C2 — for every multipart submission, the response carries the
stored-file entries, its status is 200 exactly when at least one file
part occurred (every file part is stored), and in the zero-file case the
status is 400 while `ok` is still `true`, `files` is empty, the message
reports that no files were detected, and every received text-field value
is still echoed in `fields` under its field name. -/
theorem post_upload_response (clock : Nat → Nat)
    (parts : List (String × FormValue)) (fs : Fs) :
    ((postUploadHandler clock parts fs).1.files ≠ [] ↔
      ∃ field name content, (field, FormValue.file name content) ∈ parts) ∧
    ((∃ field name content, (field, FormValue.file name content) ∈ parts) →
      (postUploadHandler clock parts fs).1.status = 200) ∧
    ((¬ ∃ field name content, (field, FormValue.file name content) ∈ parts) →
      (postUploadHandler clock parts fs).1.status = 400 ∧
      (postUploadHandler clock parts fs).1.ok = true ∧
      (postUploadHandler clock parts fs).1.files = [] ∧
      (postUploadHandler clock parts fs).1.message
        = "No files detected in upload.") ∧
    (∀ field v, (field, FormValue.text v) ∈ parts →
      ∃ vs, List.lookup field (postUploadHandler clock parts fs).1.fields
        = some vs ∧ v ∈ vs) := by
  have hlen := processParts_stored_length clock parts ⟨[], [], fs, 0⟩
  simp only [List.length_nil, Nat.zero_add] at hlen
  have hfiles : (postUploadHandler clock parts fs).1.files
      = (processParts clock parts ⟨[], [], fs, 0⟩).stored := rfl
  refine ⟨?_, ?_, ?_, ?_⟩
  · rw [hfiles, exists_file_iff, ← hlen]
    simp [List.length_eq_zero]
  · intro hex
    rw [exists_file_iff, ← hlen] at hex
    show (if (processParts clock parts ⟨[], [], fs, 0⟩).stored.length > 0
      then 200 else 400) = 200
    rw [if_pos (Nat.pos_of_ne_zero hex)]
  · intro hnex
    rw [exists_file_iff, ← hlen] at hnex
    simp only [not_not] at hnex
    refine ⟨?_, rfl, ?_, ?_⟩
    · show (if (processParts clock parts ⟨[], [], fs, 0⟩).stored.length > 0
        then 200 else 400) = 400
      rw [if_neg (by omega)]
    · rw [hfiles]
      exact List.length_eq_zero.mp hnex
    · show (if (processParts clock parts ⟨[], [], fs, 0⟩).stored.length > 0
        then "Files saved successfully." else "No files detected in upload.")
        = "No files detected in upload."
      rw [if_neg (by omega)]
  · intro field v hm
    exact processParts_fields_mem clock parts ⟨[], [], fs, 0⟩ field v hm

/-- Witness for C2 at the concrete zero-file submission holding only the
text field `note` with value `hi`. -/
theorem post_upload_response_witness :
    ((postUploadHandler (fun _ => 0)
        [("note", FormValue.text ("hi"))] []).1.status = 400 ∧
      (postUploadHandler (fun _ => 0)
        [("note", FormValue.text ("hi"))] []).1.ok = true ∧
      (postUploadHandler (fun _ => 0)
        [("note", FormValue.text ("hi"))] []).1.files = [] ∧
      (postUploadHandler (fun _ => 0)
        [("note", FormValue.text ("hi"))] []).1.message
        = "No files detected in upload.") ∧
    (∃ vs, List.lookup ("note") (postUploadHandler (fun _ => 0)
        [("note", FormValue.text ("hi"))] []).1.fields
      = some vs ∧ ("hi" : String) ∈ vs) := by
  have h := post_upload_response (fun _ => 0)
    [("note", FormValue.text ("hi"))] []
  refine ⟨h.2.2.1 ?_, h.2.2.2 ("note") ("hi") (List.mem_cons_self _ _)⟩
  rintro ⟨f, n, c, hm⟩
  simp at hm

/-- Claim C5 — round-trip: the on-disk name generated for any file part
of a `POST /upload` submission (epoch-millis digits, a dash, the
sanitized original name, with `upload.bin` replacing an empty client
name) always satisfies the safe-name pattern; and provided no later file
part of the same submission generates the same on-disk name (overwriting
it), a subsequent `GET /uploads/<savedAs>` passes validation and returns
exactly the uploaded byte content. -/
theorem upload_roundtrip (clock : Nat → Nat)
    (pre post : List (String × FormValue)) (field fname : String)
    (content : List Nat) (fs : Fs) :
    isSafeFilename (savedAsName (clock (countFileParts pre))
      (if fname = "" then "upload.bin" else fname)) = true ∧
    ((∀ w ∈ writesOf clock (countFileParts pre + 1) post,
        w.1 ≠ savedAsName (clock (countFileParts pre))
          (if fname = "" then "upload.bin" else fname)) →
      getUploadsHandler
        (postUploadHandler clock
          (pre ++ (field, FormValue.file fname content) :: post) fs).2
        (savedAsName (clock (countFileParts pre))
          (if fname = "" then "upload.bin" else fname))
        = UploadsGetResult.fileResponse content) := by
  set saved := savedAsName (clock (countFileParts pre))
    (if fname = "" then "upload.bin" else fname) with hsaved
  refine ⟨savedAsName_safe _ _, ?_⟩
  intro hnolater
  have hfs : (postUploadHandler clock
      (pre ++ (field, FormValue.file fname content) :: post) fs).2
      = (writesOf clock 0
          (pre ++ (field, FormValue.file fname content) :: post)).reverse
        ++ fs := by
    show (processParts clock
      (pre ++ (field, FormValue.file fname content) :: post)
      ⟨[], [], fs, 0⟩).fs = _
    rw [processParts_fs]
  apply getUploadsHandler_found _ _ _ (savedAsName_safe _ _)
  rw [hfs, writesOf_append]
  simp only [Nat.zero_add]
  rw [writesOf]
  have hshape : (writesOf clock 0 pre
        ++ (saved, content) :: writesOf clock (countFileParts pre + 1) post).reverse
        ++ fs
      = (writesOf clock (countFileParts pre + 1) post).reverse
        ++ ((saved, content)
          :: ((writesOf clock 0 pre).reverse ++ fs)) := by
    simp
  unfold fsLookup
  rw [hshape, lookup_append_right saved _ _
    (fun p hp => hnolater p (List.mem_reverse.mp hp)),
    lookup_cons_self]

/-- Witness for C5: one file part named `hello.txt` with content `hello`
(bytes 104 101 108 108 111), uploaded at epoch-millis 1700000000000 into
an empty store, is retrievable under its generated name. -/
theorem upload_roundtrip_witness :
    isSafeFilename (savedAsName 1700000000000 ("hello.txt")) = true ∧
    getUploadsHandler
      (postUploadHandler (fun _ => 1700000000000)
        [("file", FormValue.file ("hello.txt") [104, 101, 108, 108, 111])]
        []).2
      (savedAsName 1700000000000 ("hello.txt"))
      = UploadsGetResult.fileResponse [104, 101, 108, 108, 111] := by
  have h := upload_roundtrip (fun _ => 1700000000000) [] []
    ("file") ("hello.txt") [104, 101, 108, 108, 111] []
  have hname : (if ("hello.txt" : String) = "" then "upload.bin"
      else ("hello.txt" : String)) = "hello.txt" := by
    decide
  rw [hname] at h
  exact ⟨h.1, h.2 (fun w hw => absurd hw (List.not_mem_nil w))⟩

/-! ## Directory listing (claim C6) -/

theorem byMtimeDesc_trans (a b c : FileDetail)
    (hab : byMtimeDesc a b = true) (hbc : byMtimeDesc b c = true) :
    byMtimeDesc a c = true := by
  simp only [byMtimeDesc, decide_eq_true_eq] at hab hbc ⊢
  omega

theorem byMtimeDesc_total (a b : FileDetail) :
    (byMtimeDesc a b || byMtimeDesc b a) = true := by
  simp only [byMtimeDesc, Bool.or_eq_true, decide_eq_true_eq]
  omega

/-- Claim C6 — `listUploadedFiles` returns exactly (as a permutation,
hence same membership and multiplicity) the directory entries that are
regular files with safe names, each carrying its formatted size and its
modification time; the result is sorted by modification time descending;
and a directory-read failure yields the empty list instead of an error. -/
theorem list_uploads_spec (entries : List DirEntry) (msg : String) :
    listUploadedFiles (Except.error msg) = [] ∧
    (listUploadedFiles (Except.ok entries)).Perm
      ((entries.filter (fun e => e.isFile && isSafeFilename e.name)).map
        (fun e => ⟨e.name, formatBytes e.size, e.mtimeMs⟩)) ∧
    List.Pairwise (fun a b => b.mtimeMs ≤ a.mtimeMs)
      (listUploadedFiles (Except.ok entries)) := by
  refine ⟨rfl, ?_, ?_⟩
  · exact List.mergeSort_perm _ byMtimeDesc
  · have h := @List.sorted_mergeSort FileDetail byMtimeDesc
      byMtimeDesc_trans byMtimeDesc_total
      ((entries.filter (fun e => e.isFile && isSafeFilename e.name)).map
        (fun e => ⟨e.name, formatBytes e.size, e.mtimeMs⟩))
    exact h.imp (fun hab => by simpa [byMtimeDesc] using hab)

/-! ## Change notifier broadcast (claim C7) -/

theorem broadcast_foldl (subs : List Subscriber) (acc : BroadcastResult) :
    (subs.foldl broadcastStep acc).subs = acc.subs ∧
    (subs.foldl broadcastStep acc).delivered
      = acc.delivered ++ (subs.filter (fun s => !s.throws)).map
          (fun s => (s.id, "refresh")) ∧
    (subs.foldl broadcastStep acc).warnings
      = acc.warnings + (subs.filter (fun s => s.throws)).length := by
  induction subs generalizing acc with
  | nil => simp
  | cons a rest ih =>
    obtain ⟨ih1, ih2, ih3⟩ := ih (broadcastStep acc a)
    cases ha : a.throws with
    | true =>
      refine ⟨?_, ?_, ?_⟩
      · rw [List.foldl_cons, ih1]
        simp [broadcastStep, ha]
      · rw [List.foldl_cons, ih2]
        simp [broadcastStep, ha]
      · rw [List.foldl_cons, ih3]
        simp [broadcastStep, ha]
        omega
    | false =>
      refine ⟨?_, ?_, ?_⟩
      · rw [List.foldl_cons, ih1]
        simp [broadcastStep, ha]
      · rw [List.foldl_cons, ih2]
        simp [broadcastStep, ha]
      · rw [List.foldl_cons, ih3]
        simp [broadcastStep, ha]

/-- Counterexample for C7 — with a throwing first subscriber and a normal
second one, the broadcast delivers `refresh` to the second and logs one
warning, but the failing subscriber is still a member of the subscriber
set afterwards: it does not transition to unregistered as the claim
states (the catch block only logs; `subscribers.delete` is never
called). -/
theorem failing_subscriber_stays_registered :
    Subscriber.mk 1 true ∈ (broadcastChange [⟨1, true⟩, ⟨2, false⟩]).subs ∧
    (broadcastChange [⟨1, true⟩, ⟨2, false⟩]).delivered = [(2, "refresh")] ∧
    (broadcastChange [⟨1, true⟩, ⟨2, false⟩]).warnings = 1 := by
  decide

/-- Claim C7 (amended) — when a subscriber's push callback throws during
a broadcast, the error is swallowed and logged (one warning per throwing
subscriber), every non-throwing subscriber — including those iterated
after the failure — still receives the same `refresh` token, and the
subscriber set is unchanged: the failing subscriber remains registered
(it is not removed and not retried), matching the error-handling section
of the specification rather than the removal wording. -/
theorem broadcast_swallows_and_keeps (subs : List Subscriber) :
    (broadcastChange subs).subs = subs ∧
    (∀ s ∈ subs, s.throws = false →
      (s.id, "refresh") ∈ (broadcastChange subs).delivered) ∧
    (broadcastChange subs).warnings
      = (subs.filter (fun s => s.throws)).length := by
  obtain ⟨h1, h2, h3⟩ := broadcast_foldl subs ⟨[], 0, subs⟩
  refine ⟨h1, ?_, by simpa using h3⟩
  intro s hs hth
  unfold broadcastChange
  rw [h2]
  simp only [List.nil_append]
  exact List.mem_map.mpr ⟨s, List.mem_filter.mpr ⟨hs, by simp [hth]⟩, rfl⟩

/-- Witness for the amended C7 at the concrete set of one throwing and
one normal subscriber: the set survives intact and the normal subscriber
still receives `refresh`. -/
theorem broadcast_swallows_and_keeps_witness :
    (broadcastChange [⟨1, true⟩, ⟨2, false⟩]).subs
      = [⟨1, true⟩, ⟨2, false⟩] ∧
    (2, ("refresh" : String))
      ∈ (broadcastChange [⟨1, true⟩, ⟨2, false⟩]).delivered :=
  ⟨(broadcast_swallows_and_keeps [⟨1, true⟩, ⟨2, false⟩]).1,
   (broadcast_swallows_and_keeps [⟨1, true⟩, ⟨2, false⟩]).2.1
     ⟨2, false⟩ (by decide) rfl⟩

/-! ## Event-stream lifecycle (claim C8) -/

theorem not_mem_setAdd (l : List Nat) (a id : Nat) (h1 : a ∉ l)
    (h2 : a ≠ id) : a ∉ setAdd l id := by
  unfold setAdd
  split
  · exact h1
  · intro hm
    rcases List.mem_append.mp hm with hin | hin
    · exact h1 hin
    · simp only [List.mem_singleton] at hin
      exact h2 hin

theorem setAdd_nodup (l : List Nat) (id : Nat) (h : l.Nodup) :
    (setAdd l id).Nodup := by
  unfold setAdd
  split
  · exact h
  · rename_i hnm
    simp [List.nodup_append, h, hnm]

theorem not_mem_erase_of_not_mem (a x : Nat) (l : List Nat) (h : a ∉ l) :
    a ∉ l.erase x :=
  fun hm => h (List.mem_of_mem_erase hm)

theorem events_not_mem_run (id : Nat) (tr : List EventsEvent) :
    ∀ st : EventsState, id ∉ st.subs →
      (∀ e ∈ tr, e ≠ EventsEvent.openConn id) →
      id ∉ (eventsRun st tr).subs := by
  induction tr with
  | nil =>
    intro st h _
    exact h
  | cons e rest ih =>
    intro st h hno
    have hrun : eventsRun st (e :: rest) = eventsRun (eventsStep st e) rest :=
      rfl
    rw [hrun]
    apply ih
    · cases e with
      | openConn i =>
        have hne : i ≠ id := by
          intro he
          exact hno (EventsEvent.openConn i) (List.mem_cons_self _ _)
            (by rw [he])
        exact not_mem_setAdd st.subs id i h (fun he => hne he.symm)
      | abortConn i => exact not_mem_erase_of_not_mem id i st.subs h
      | cancelConn i => exact not_mem_erase_of_not_mem id i st.subs h
      | broadcast => exact h
    · exact fun e2 he2 => hno e2 (List.mem_cons_of_mem _ he2)

theorem events_run_nodup (tr : List EventsEvent) :
    ∀ st : EventsState, st.subs.Nodup → (eventsRun st tr).subs.Nodup := by
  induction tr with
  | nil =>
    intro st h
    exact h
  | cons e rest ih =>
    intro st h
    have hrun : eventsRun st (e :: rest) = eventsRun (eventsStep st e) rest :=
      rfl
    rw [hrun]
    apply ih
    cases e with
    | openConn i => exact setAdd_nodup st.subs i h
    | abortConn i => exact h.erase i
    | cancelConn i => exact h.erase i
    | broadcast => exact h

/-- Claim C8 — for every `GET /events` connection: on open exactly one
subscriber (the connection's own id, assumed fresh) is appended to the
set and its stream holds the single message `data: connected` (so the
first message pushed is the connected message); on either exit path
(abort listener or stream cancel) the subscriber is no longer a member of
a duplicate-free set; and from any state not containing the id, no run of
events that never reopens that id ever makes it a member again — after
disconnect it is never again in the subscriber set. Runs also preserve
freedom from duplicates, so the Nodup hypotheses hold in every reachable
state (the set starts empty). -/
theorem events_lifecycle (st st2 : EventsState) (id : Nat)
    (tr : List EventsEvent) :
    (id ∉ st.subs →
      (eventsStep st (EventsEvent.openConn id)).subs = st.subs ++ [id] ∧
      List.lookup id (eventsStep st (EventsEvent.openConn id)).streams
        = some ["data: connected\n\n"]) ∧
    (st.subs.Nodup → id ∉ (eventsStep st (EventsEvent.abortConn id)).subs) ∧
    (st.subs.Nodup → id ∉ (eventsStep st (EventsEvent.cancelConn id)).subs) ∧
    (id ∉ st2.subs → (∀ e ∈ tr, e ≠ EventsEvent.openConn id) →
      id ∉ (eventsRun st2 tr).subs) ∧
    (st2.subs.Nodup → (eventsRun st2 tr).subs.Nodup) := by
  refine ⟨?_, ?_, ?_, ?_, ?_⟩
  · intro hfresh
    constructor
    · show setAdd st.subs id = st.subs ++ [id]
      unfold setAdd
      rw [if_neg hfresh]
    · exact lookup_cons_self id (["data: connected\n\n"]) st.streams
  · intro hnd hm
    have hm2 : id ∈ st.subs.erase id := hm
    exact absurd ((List.Nodup.mem_erase_iff hnd).mp hm2).1 (by simp)
  · intro hnd hm
    have hm2 : id ∈ st.subs.erase id := hm
    exact absurd ((List.Nodup.mem_erase_iff hnd).mp hm2).1 (by simp)
  · exact events_not_mem_run id tr st2
  · exact events_run_nodup tr st2

/-- Witness for C8: connection 7 opens on the empty state (one entry
appended, stream holds only the connected message); aborting from the
singleton state removes it; and a later run that opens, broadcasts to and
aborts a different connection 3 never re-adds 7. -/
theorem events_lifecycle_witness :
    ((eventsStep ⟨[], []⟩ (EventsEvent.openConn 7)).subs = [7] ∧
      List.lookup 7 (eventsStep ⟨[], []⟩ (EventsEvent.openConn 7)).streams
        = some ["data: connected\n\n"]) ∧
    7 ∉ (eventsStep ⟨[7], []⟩ (EventsEvent.abortConn 7)).subs ∧
    7 ∉ (eventsRun ⟨[], []⟩ [EventsEvent.openConn 3, EventsEvent.broadcast,
      EventsEvent.abortConn 3]).subs := by
  have h1 := events_lifecycle ⟨[], []⟩ ⟨[], []⟩ 7
    [EventsEvent.openConn 3, EventsEvent.broadcast, EventsEvent.abortConn 3]
  have h2 := events_lifecycle ⟨[7], []⟩ ⟨[], []⟩ 7 []
  exact ⟨h1.1 (List.not_mem_nil 7), h2.2.1 (by decide),
    h1.2.2.2.1 (List.not_mem_nil 7) (by decide)⟩

end UploadReceiver
